import Mathlib

/-!
Verification of the Assignment3 lambda-calculus interpreter
(src/Assignment3/interpreter.py) against its specification.

The abstract syntax trees of the interpreter are Python tuples
whose first component is a tag string.  The tags handled by
substitute, evaluate and linearize are var, num, lam, app, plus,
minus, times and neg; every tuple with any other tag is covered by
the constructor Tree.other, whose fields model the remaining tuple
components (strings and subtrees).  The num payload, a Python
IEEE-754 double in the source, is modelled as an exact rational:
every numeric literal and every arithmetic result appearing in the
claims is an integer small enough that double arithmetic is exact,
so the model and the doubles agree on all cited behaviour.

Python exceptions (raise Exception) are modelled by the result
Res.err; since evaluate is not structurally terminating it is given
a fuel parameter, and Res.out marks fuel exhaustion (a run that with
every fuel yields Res.out models divergence).  The process-wide
fresh-name counter (NameGenerator) is threaded explicitly through
substitute and evaluate.
-/

namespace Assignment3

mutual

inductive Tree where
  | var (name : String)
  | num (val : Rat)
  | lam (param : String) (body : Tree)
  | app (fn : Tree) (arg : Tree)
  | plus (l : Tree) (r : Tree)
  | minus (l : Tree) (r : Tree)
  | times (l : Tree) (r : Tree)
  | neg (e : Tree)
  | other (tag : String) (fields : List Field)

inductive Field where
  | fstr (s : String)
  | ftree (t : Tree)

end

/-- Result of a Python call: normal return, raised exception, or fuel
exhaustion of the model (the Python original simply keeps running). -/
inductive Res where
  | ok (t : Tree)
  | err
  | out

/-- NameGenerator.generate: increment the counter and return the name
Var followed by the new counter value, together with the new counter. -/
def generate (counter : Nat) : String × Nat :=
  ("Var" ++ toString (counter + 1), counter + 1)

/-- Sequencing of two calls in the source: if the first call returned
normally its value flows into the continuation, and if it raised (or, in
the model, ran out of fuel) that outcome propagates, exactly as a Python
exception propagates out of the caller. -/
def bindRes (x : Res × Nat) (k : Tree → Nat → Res × Nat) : Res × Nat :=
  match x with
  | (.ok t, c) => k t c
  | (e, c) => (e, c)

/-- substitute(tree, name, replacement) = tree[replacement/name] from the
source, with the global name counter threaded through and a fuel
parameter added (the source function terminates on every finite tree;
Res.out only appears when the fuel is smaller than the recursion depth). -/
def substitute : Nat → Tree → String → Tree → Nat → Res × Nat
  | 0, _, _, _, ctr => (.out, ctr)
  | fuel + 1, t, name, replacement, ctr =>
    match t with
    | .var y =>
      if y = name then (.ok replacement, ctr) else (.ok (.var y), ctr)
    | .lam bound body =>
      if bound = name then (.ok (.lam bound body), ctr)
      else
        match generate ctr with
        | (freshName, c1) =>
          bindRes (substitute fuel body bound (.var freshName) c1) fun renamedBody c2 =>
          bindRes (substitute fuel renamedBody name replacement c2) fun newBody c3 =>
            (.ok (.lam freshName newBody), c3)
    | .app f a =>
      bindRes (substitute fuel f name replacement ctr) fun f1 c1 =>
      bindRes (substitute fuel a name replacement c1) fun a1 c2 =>
        (.ok (.app f1 a1), c2)
    | .num v => (.ok (.num v), ctr)
    | .plus l r =>
      bindRes (substitute fuel l name replacement ctr) fun l1 c1 =>
      bindRes (substitute fuel r name replacement c1) fun r1 c2 =>
        (.ok (.plus l1 r1), c2)
    | .minus l r =>
      bindRes (substitute fuel l name replacement ctr) fun l1 c1 =>
      bindRes (substitute fuel r name replacement c1) fun r1 c2 =>
        (.ok (.minus l1 r1), c2)
    | .times l r =>
      bindRes (substitute fuel l name replacement ctr) fun l1 c1 =>
      bindRes (substitute fuel r name replacement c1) fun r1 c2 =>
        (.ok (.times l1 r1), c2)
    | .neg e =>
      bindRes (substitute fuel e name replacement ctr) fun e1 c1 =>
        (.ok (.neg e1), c1)
    | .other _ _ => (.err, ctr)

/-- evaluate from the source: normal-order reduction.  Fuel is added
because the source function need not terminate; the counter of the
fresh-name generator is threaded through the substitute calls. -/
def evaluate : Nat → Tree → Nat → Res × Nat
  | 0, _, ctr => (.out, ctr)
  | fuel + 1, t, ctr =>
    match t with
    | .var y => (.ok (.var y), ctr)
    | .num v => (.ok (.num v), ctr)
    | .lam x b => (.ok (.lam x b), ctr)
    | .app f a =>
      bindRes (evaluate fuel f ctr) fun fv c1 =>
        match fv with
        | .lam name body =>
          bindRes (substitute fuel body name a c1) fun body1 c2 =>
            evaluate fuel body1 c2
        | _ => (.ok (.app fv a), c1)
    | .plus l r =>
      bindRes (evaluate fuel l ctr) fun lv c1 =>
      bindRes (evaluate fuel r c1) fun rv c2 =>
        match lv, rv with
        | .num a, .num b => (.ok (.num (a + b)), c2)
        | _, _ => (.ok (.plus lv rv), c2)
    | .minus l r =>
      bindRes (evaluate fuel l ctr) fun lv c1 =>
      bindRes (evaluate fuel r c1) fun rv c2 =>
        match lv, rv with
        | .num a, .num b => (.ok (.num (a - b)), c2)
        | _, _ => (.ok (.minus lv rv), c2)
    | .times l r =>
      bindRes (evaluate fuel l ctr) fun lv c1 =>
      bindRes (evaluate fuel r c1) fun rv c2 =>
        match lv, rv with
        | .num a, .num b => (.ok (.num (a * b)), c2)
        | _, _ => (.ok (.times lv rv), c2)
    | .neg e =>
      bindRes (evaluate fuel e ctr) fun v c1 =>
        match v with
        | .num a => (.ok (.num (-a)), c1)
        | _ => (.ok (.neg v), c1)
    | .other _ _ => (.err, ctr)

/-- Rendering of a num payload, modelling str() of a Python float at
the integral values used by the program (3.0 prints as 3.0). -/
def numRepr (q : Rat) : String :=
  if q.den = 1 then toString q.num ++ ".0" else toString q

/-- Python repr of a simple string: the string between two apostrophes. -/
def pyQuote (s : String) : String :=
  "\x27" ++ s ++ "\x27"

mutual

/-- Python str() of an AST tuple, used by the final else branch of
linearize for tags it does not recognise. -/
def pyStr : Tree → String
  | .var n => "(\x27var\x27, " ++ pyQuote n ++ ")"
  | .num v => "(\x27num\x27, " ++ numRepr v ++ ")"
  | .lam x b => "(\x27lam\x27, " ++ pyQuote x ++ ", " ++ pyStr b ++ ")"
  | .app f a => "(\x27app\x27, " ++ pyStr f ++ ", " ++ pyStr a ++ ")"
  | .plus l r => "(\x27plus\x27, " ++ pyStr l ++ ", " ++ pyStr r ++ ")"
  | .minus l r => "(\x27minus\x27, " ++ pyStr l ++ ", " ++ pyStr r ++ ")"
  | .times l r => "(\x27times\x27, " ++ pyStr l ++ ", " ++ pyStr r ++ ")"
  | .neg e => "(\x27neg\x27, " ++ pyStr e ++ ")"
  | .other tag fields =>
    "(" ++ pyQuote tag ++ (if fields.isEmpty then ",)" else pyStrFields fields ++ ")")

def pyStrFields : List Field → String
  | [] => ""
  | .fstr s :: rest => ", " ++ pyQuote s ++ pyStrFields rest
  | .ftree t :: rest => ", " ++ pyStr t ++ pyStrFields rest

end

/-- linearize from the source: AST to concrete syntax, with the final
else branch falling back to the Python default string conversion. -/
def linearize : Tree → String
  | .var n => n
  | .num v => numRepr v
  | .lam x b => "(\\" ++ x ++ "." ++ linearize b ++ ")"
  | .app f a => "(" ++ linearize f ++ " " ++ linearize a ++ ")"
  | .plus l r => "(" ++ linearize l ++ " + " ++ linearize r ++ ")"
  | .minus l r => "(" ++ linearize l ++ " - " ++ linearize r ++ ")"
  | .times l r => "(" ++ linearize l ++ " * " ++ linearize r ++ ")"
  | .neg e => "(-" ++ linearize e ++ ")"
  | .other tag fields => pyStr (.other tag fields)

/-- Tags handled by evaluate and substitute; trees using only these
constructors are exactly the inputs on which the source never raises. -/
def implOnly : Tree → Bool
  | .var _ => true
  | .num _ => true
  | .lam _ b => implOnly b
  | .app f a => implOnly f && implOnly a
  | .plus l r => implOnly l && implOnly r
  | .minus l r => implOnly l && implOnly r
  | .times l r => implOnly l && implOnly r
  | .neg e => implOnly e
  | .other _ _ => false

def isLam : Tree → Bool
  | .lam _ _ => true
  | _ => false

def isNum : Tree → Bool
  | .num _ => true
  | _ => false

/-- Normal forms in the sense of the specification: a Num, a Lam, a Var,
or a stuck residual all of whose children are themselves normal. -/
def isNormal : Tree → Bool
  | .var _ => true
  | .num _ => true
  | .lam _ _ => true
  | .app f a => isNormal f && !isLam f && isNormal a
  | .plus l r => isNormal l && isNormal r && !(isNum l && isNum r)
  | .minus l r => isNormal l && isNormal r && !(isNum l && isNum r)
  | .times l r => isNormal l && isNormal r && !(isNum l && isNum r)
  | .neg e => isNormal e && !isNum e
  | .other _ _ => false

/-- Trees that evaluate returns unchanged (weak-head fixed points); unlike
isNormal, the argument of a stuck application is unconstrained, because
evaluate leaves it untouched. -/
def isFixed : Tree → Bool
  | .var _ => true
  | .num _ => true
  | .lam _ _ => true
  | .app f _ => isFixed f && !isLam f
  | .plus l r => isFixed l && isFixed r && !(isNum l && isNum r)
  | .minus l r => isFixed l && isFixed r && !(isNum l && isNum r)
  | .times l r => isFixed l && isFixed r && !(isNum l && isNum r)
  | .neg e => isFixed e && !isNum e
  | .other _ _ => false

/-- Structural depth of a tree, used to bound the fuel evaluate needs on
terms it returns unchanged. -/
def depth : Tree → Nat
  | .var _ => 1
  | .num _ => 1
  | .lam _ b => depth b + 1
  | .app f a => max (depth f) (depth a) + 1
  | .plus l r => max (depth l) (depth r) + 1
  | .minus l r => max (depth l) (depth r) + 1
  | .times l r => max (depth l) (depth r) + 1
  | .neg e => depth e + 1
  | .other _ _ => 1

/-- User-writable identifiers of the surface grammar: a lowercase letter
followed by letters and digits. -/
def isUserIdent (s : String) : Bool :=
  match s.data with
  | [] => false
  | c :: rest => c.isLower && rest.all Char.isAlphanum

/-! One-step unfolding lemmas for bindRes, substitute and evaluate, all
definitional. -/

lemma bindRes_ok (t : Tree) (c : Nat) (k : Tree → Nat → Res × Nat) :
    bindRes (.ok t, c) k = k t c := rfl

lemma bindRes_err (c : Nat) (k : Tree → Nat → Res × Nat) :
    bindRes (.err, c) k = (.err, c) := rfl

lemma bindRes_out (c : Nat) (k : Tree → Nat → Res × Nat) :
    bindRes (.out, c) k = (.out, c) := rfl

lemma substitute_zero (t : Tree) (name : String) (r : Tree) (ctr : Nat) :
    substitute 0 t name r ctr = (.out, ctr) := rfl

lemma substitute_succ_var (f : Nat) (y name : String) (r : Tree) (ctr : Nat) :
    substitute (f + 1) (.var y) name r ctr =
      if y = name then (.ok r, ctr) else (.ok (.var y), ctr) := rfl

lemma substitute_succ_num (f : Nat) (v : Rat) (name : String) (r : Tree) (ctr : Nat) :
    substitute (f + 1) (.num v) name r ctr = (.ok (.num v), ctr) := rfl

lemma substitute_succ_lam (f : Nat) (bound : String) (body : Tree) (name : String)
    (r : Tree) (ctr : Nat) :
    substitute (f + 1) (.lam bound body) name r ctr =
      (if bound = name then (.ok (.lam bound body), ctr)
       else
         bindRes (substitute f body bound (.var ("Var" ++ toString (ctr + 1))) (ctr + 1))
           fun renamedBody c2 =>
         bindRes (substitute f renamedBody name r c2) fun newBody c3 =>
           (.ok (.lam ("Var" ++ toString (ctr + 1)) newBody), c3)) := rfl

lemma substitute_succ_app (f : Nat) (fn a : Tree) (name : String) (r : Tree) (ctr : Nat) :
    substitute (f + 1) (.app fn a) name r ctr =
      (bindRes (substitute f fn name r ctr) fun f1 c1 =>
       bindRes (substitute f a name r c1) fun a1 c2 =>
         (.ok (.app f1 a1), c2)) := rfl

lemma substitute_succ_plus (f : Nat) (l r0 : Tree) (name : String) (r : Tree) (ctr : Nat) :
    substitute (f + 1) (.plus l r0) name r ctr =
      (bindRes (substitute f l name r ctr) fun l1 c1 =>
       bindRes (substitute f r0 name r c1) fun r1 c2 =>
         (.ok (.plus l1 r1), c2)) := rfl

lemma substitute_succ_minus (f : Nat) (l r0 : Tree) (name : String) (r : Tree) (ctr : Nat) :
    substitute (f + 1) (.minus l r0) name r ctr =
      (bindRes (substitute f l name r ctr) fun l1 c1 =>
       bindRes (substitute f r0 name r c1) fun r1 c2 =>
         (.ok (.minus l1 r1), c2)) := rfl

lemma substitute_succ_times (f : Nat) (l r0 : Tree) (name : String) (r : Tree) (ctr : Nat) :
    substitute (f + 1) (.times l r0) name r ctr =
      (bindRes (substitute f l name r ctr) fun l1 c1 =>
       bindRes (substitute f r0 name r c1) fun r1 c2 =>
         (.ok (.times l1 r1), c2)) := rfl

lemma substitute_succ_neg (f : Nat) (e : Tree) (name : String) (r : Tree) (ctr : Nat) :
    substitute (f + 1) (.neg e) name r ctr =
      (bindRes (substitute f e name r ctr) fun e1 c1 =>
         (.ok (.neg e1), c1)) := rfl

lemma substitute_succ_other (f : Nat) (tag : String) (fs : List Field)
    (name : String) (r : Tree) (ctr : Nat) :
    substitute (f + 1) (.other tag fs) name r ctr = (.err, ctr) := rfl

lemma evaluate_zero (t : Tree) (ctr : Nat) : evaluate 0 t ctr = (.out, ctr) := rfl

lemma evaluate_succ_var (f : Nat) (y : String) (ctr : Nat) :
    evaluate (f + 1) (.var y) ctr = (.ok (.var y), ctr) := rfl

lemma evaluate_succ_num (f : Nat) (v : Rat) (ctr : Nat) :
    evaluate (f + 1) (.num v) ctr = (.ok (.num v), ctr) := rfl

lemma evaluate_succ_lam (f : Nat) (x : String) (b : Tree) (ctr : Nat) :
    evaluate (f + 1) (.lam x b) ctr = (.ok (.lam x b), ctr) := rfl

lemma evaluate_succ_app (f : Nat) (fn a : Tree) (ctr : Nat) :
    evaluate (f + 1) (.app fn a) ctr =
      (bindRes (evaluate f fn ctr) fun fv c1 =>
        match fv with
        | .lam name body =>
          bindRes (substitute f body name a c1) fun body1 c2 =>
            evaluate f body1 c2
        | _ => (.ok (.app fv a), c1)) := rfl

lemma evaluate_succ_plus (f : Nat) (l r : Tree) (ctr : Nat) :
    evaluate (f + 1) (.plus l r) ctr =
      (bindRes (evaluate f l ctr) fun lv c1 =>
       bindRes (evaluate f r c1) fun rv c2 =>
        match lv, rv with
        | .num a, .num b => (.ok (.num (a + b)), c2)
        | _, _ => (.ok (.plus lv rv), c2)) := rfl

lemma evaluate_succ_minus (f : Nat) (l r : Tree) (ctr : Nat) :
    evaluate (f + 1) (.minus l r) ctr =
      (bindRes (evaluate f l ctr) fun lv c1 =>
       bindRes (evaluate f r c1) fun rv c2 =>
        match lv, rv with
        | .num a, .num b => (.ok (.num (a - b)), c2)
        | _, _ => (.ok (.minus lv rv), c2)) := rfl

lemma evaluate_succ_times (f : Nat) (l r : Tree) (ctr : Nat) :
    evaluate (f + 1) (.times l r) ctr =
      (bindRes (evaluate f l ctr) fun lv c1 =>
       bindRes (evaluate f r c1) fun rv c2 =>
        match lv, rv with
        | .num a, .num b => (.ok (.num (a * b)), c2)
        | _, _ => (.ok (.times lv rv), c2)) := rfl

lemma evaluate_succ_neg (f : Nat) (e : Tree) (ctr : Nat) :
    evaluate (f + 1) (.neg e) ctr =
      (bindRes (evaluate f e ctr) fun v c1 =>
        match v with
        | .num a => (.ok (.num (-a)), c1)
        | _ => (.ok (.neg v), c1)) := rfl

lemma evaluate_succ_other (f : Nat) (tag : String) (fs : List Field) (ctr : Nat) :
    evaluate (f + 1) (.other tag fs) ctr = (.err, ctr) := rfl

/-! Helper lemmas about decimal printing of natural numbers, used for the
fresh-name supply: Nat.repr is injective. -/

/-- Numeric value of a decimal digit character. -/
def digitVal (c : Char) : Nat :=
  c.toNat - 48

lemma digitVal_digitChar : ∀ d : Nat, d < 10 → digitVal (Nat.digitChar d) = d := by
  decide

lemma toDigitsCore_eq_digits (fuel : Nat) :
    ∀ (n : Nat) (ds : List Char), n ≠ 0 → n ≤ fuel →
      Nat.toDigitsCore 10 fuel n ds =
        ((Nat.digits 10 n).map Nat.digitChar).reverse ++ ds := by
  induction fuel with
  | zero => intro n ds h0 hf; omega
  | succ f ih =>
    intro n ds h0 hf
    rw [Nat.toDigitsCore]
    by_cases hn : n / 10 = 0
    · rw [if_pos hn, Nat.digits_def' (by norm_num : 1 < 10) (Nat.pos_of_ne_zero h0), hn]
      simp
    · rw [if_neg hn]
      have hlt : n / 10 < n := Nat.div_lt_self (Nat.pos_of_ne_zero h0) (by norm_num)
      rw [ih (n / 10) _ hn (by omega)]
      rw [Nat.digits_def' (by norm_num : 1 < 10) (Nat.pos_of_ne_zero h0)]
      simp

lemma toDigits_eq_digits (n : Nat) (h : n ≠ 0) :
    Nat.toDigits 10 n = ((Nat.digits 10 n).map Nat.digitChar).reverse := by
  rw [Nat.toDigits, toDigitsCore_eq_digits (n + 1) n [] h (by omega), List.append_nil]

lemma decode_toDigits (n : Nat) :
    Nat.ofDigits 10 ((Nat.toDigits 10 n).reverse.map digitVal) = n := by
  by_cases h : n = 0
  · subst h
    decide
  · rw [toDigits_eq_digits n h, List.reverse_reverse, List.map_map]
    have hmap : (Nat.digits 10 n).map (digitVal ∘ Nat.digitChar) = Nat.digits 10 n := by
      have := List.map_congr_left (l := Nat.digits 10 n)
        (f := digitVal ∘ Nat.digitChar) (g := id) ?_
      · simpa using this
      · intro d hd
        exact digitVal_digitChar d (Nat.digits_lt_base (by norm_num) hd)
    rw [hmap, Nat.ofDigits_digits]

lemma natRepr_injective {m n : Nat} (h : Nat.repr m = Nat.repr n) : m = n := by
  have hdata : Nat.toDigits 10 m = Nat.toDigits 10 n := by
    have := congrArg String.data h
    simpa [Nat.repr, List.asString] using this
  have h2 : Nat.ofDigits 10 ((Nat.toDigits 10 m).reverse.map digitVal) =
      Nat.ofDigits 10 ((Nat.toDigits 10 n).reverse.map digitVal) := by rw [hdata]
  rw [decode_toDigits, decode_toDigits] at h2
  exact h2

lemma natToString_injective {m n : Nat} (h : toString m = toString n) : m = n :=
  natRepr_injective h

/-! Helper lemmas about strings of the form Var ++ suffix. -/

lemma var_append_data (t : String) :
    ("Var" ++ t).data = 'V' :: 'a' :: 'r' :: t.data := by
  cases t
  rfl

lemma var_append_injective {s t : String} (h : "Var" ++ s = "Var" ++ t) : s = t := by
  cases s with
  | mk ls =>
    cases t with
    | mk lt =>
      have := congrArg String.data h
      rw [var_append_data, var_append_data] at this
      simp only [String.data] at this
      simp_all

lemma userIdent_ne_var_append (t s : String) (h : isUserIdent s = true) :
    s ≠ "Var" ++ t := by
  intro he
  rw [he] at h
  rw [isUserIdent, var_append_data] at h
  simp at h


lemma not_both_num {lv rv : Tree}
    (h : ∀ (a b : Rat), lv = .num a → rv = .num b → False) :
    (isNum lv && isNum rv) = false := by
  cases lv <;> cases rv <;> simp_all [isNum]

lemma eval_isFixed : ∀ (fuel : Nat) (t : Tree) (ctr : Nat),
    isFixed t = true → depth t ≤ fuel → evaluate fuel t ctr = (.ok t, ctr) := by
  intro fuel
  induction fuel with
  | zero =>
    intro t ctr _ hd
    cases t <;> simp [depth] at hd
  | succ f ih =>
    intro t ctr hfix hd
    cases t with
    | var n => rw [evaluate_succ_var]
    | num v => rw [evaluate_succ_num]
    | lam x b => rw [evaluate_succ_lam]
    | app fn arg =>
      rw [isFixed] at hfix
      simp only [Bool.and_eq_true, Bool.not_eq_true'] at hfix
      rw [depth] at hd
      have h1 := Nat.le_max_left (depth fn) (depth arg)
      rw [evaluate_succ_app, ih fn ctr hfix.1 (by omega), bindRes_ok]
      clear ih hd h1
      cases fn <;> simp_all [isLam]
    | plus l r =>
      rw [isFixed] at hfix
      simp only [Bool.and_eq_true, Bool.not_eq_true', Bool.and_eq_false_iff] at hfix
      rw [depth] at hd
      have h1 := Nat.le_max_left (depth l) (depth r)
      have h2 := Nat.le_max_right (depth l) (depth r)
      rw [evaluate_succ_plus, ih l ctr hfix.1.1 (by omega), bindRes_ok,
        ih r ctr hfix.1.2 (by omega), bindRes_ok]
      clear ih hd h1 h2
      rcases hfix.2 with h | h <;> cases l <;> cases r <;> simp_all [isNum]
    | minus l r =>
      rw [isFixed] at hfix
      simp only [Bool.and_eq_true, Bool.not_eq_true', Bool.and_eq_false_iff] at hfix
      rw [depth] at hd
      have h1 := Nat.le_max_left (depth l) (depth r)
      have h2 := Nat.le_max_right (depth l) (depth r)
      rw [evaluate_succ_minus, ih l ctr hfix.1.1 (by omega), bindRes_ok,
        ih r ctr hfix.1.2 (by omega), bindRes_ok]
      clear ih hd h1 h2
      rcases hfix.2 with h | h <;> cases l <;> cases r <;> simp_all [isNum]
    | times l r =>
      rw [isFixed] at hfix
      simp only [Bool.and_eq_true, Bool.not_eq_true', Bool.and_eq_false_iff] at hfix
      rw [depth] at hd
      have h1 := Nat.le_max_left (depth l) (depth r)
      have h2 := Nat.le_max_right (depth l) (depth r)
      rw [evaluate_succ_times, ih l ctr hfix.1.1 (by omega), bindRes_ok,
        ih r ctr hfix.1.2 (by omega), bindRes_ok]
      clear ih hd h1 h2
      rcases hfix.2 with h | h <;> cases l <;> cases r <;> simp_all [isNum]
    | neg e =>
      rw [isFixed] at hfix
      simp only [Bool.and_eq_true, Bool.not_eq_true'] at hfix
      rw [depth] at hd
      rw [evaluate_succ_neg, ih e ctr hfix.1 (by omega), bindRes_ok]
      clear ih hd
      cases e <;> simp_all [isNum]
    | other tag fields => simp [isFixed] at hfix


lemma eval_ok_isFixed : ∀ (fuel : Nat) (t : Tree) (ctr : Nat) (v : Tree) (c : Nat),
    evaluate fuel t ctr = (.ok v, c) → isFixed v = true := by
  intro fuel
  induction fuel with
  | zero =>
    intro t ctr v c h
    rw [evaluate_zero] at h
    exact absurd h (by simp)
  | succ f ih =>
    intro t ctr v c h
    cases t with
    | var y =>
      rw [evaluate_succ_var] at h
      simp only [Prod.mk.injEq, Res.ok.injEq] at h
      obtain ⟨h1, -⟩ := h
      subst h1
      rfl
    | num w =>
      rw [evaluate_succ_num] at h
      simp only [Prod.mk.injEq, Res.ok.injEq] at h
      obtain ⟨h1, -⟩ := h
      subst h1
      rfl
    | lam x b =>
      rw [evaluate_succ_lam] at h
      simp only [Prod.mk.injEq, Res.ok.injEq] at h
      obtain ⟨h1, -⟩ := h
      subst h1
      rfl
    | app fn arg =>
      rw [evaluate_succ_app] at h
      rcases hfn : evaluate f fn ctr with ⟨rv, c1⟩
      rw [hfn] at h
      cases rv with
      | ok fv =>
        rw [bindRes_ok] at h
        have hfv := ih fn ctr fv c1 hfn
        split at h
        · rename_i name body
          rcases hs : substitute f body name arg c1 with ⟨rs, c2⟩
          rw [hs] at h
          cases rs with
          | ok body1 =>
            rw [bindRes_ok] at h
            exact ih body1 c2 v c h
          | err => rw [bindRes_err] at h; exact absurd h (by simp)
          | out => rw [bindRes_out] at h; exact absurd h (by simp)
        · simp only [Prod.mk.injEq, Res.ok.injEq] at h
          obtain ⟨h1, -⟩ := h
          subst h1
          cases fv <;> simp_all [isFixed, isLam]
      | err => rw [bindRes_err] at h; exact absurd h (by simp)
      | out => rw [bindRes_out] at h; exact absurd h (by simp)
    | plus l r =>
      rw [evaluate_succ_plus] at h
      rcases hl : evaluate f l ctr with ⟨rl, c1⟩
      rw [hl] at h
      cases rl with
      | ok lv =>
        rw [bindRes_ok] at h
        rcases hr : evaluate f r c1 with ⟨rr, c2⟩
        rw [hr] at h
        cases rr with
        | ok rv =>
          rw [bindRes_ok] at h
          have hflv := ih l ctr lv c1 hl
          have hfrv := ih r c1 rv c2 hr
          clear ih hl hr
          split at h
          · simp only [Prod.mk.injEq, Res.ok.injEq] at h
            obtain ⟨h1, -⟩ := h
            subst h1
            rfl
          · simp only [Prod.mk.injEq, Res.ok.injEq] at h
            obtain ⟨h1, -⟩ := h
            subst h1
            rename_i hne
            have hnn := not_both_num hne
            simp [isFixed, hflv, hfrv, hnn]
        | err => rw [bindRes_err] at h; exact absurd h (by simp)
        | out => rw [bindRes_out] at h; exact absurd h (by simp)
      | err => rw [bindRes_err] at h; exact absurd h (by simp)
      | out => rw [bindRes_out] at h; exact absurd h (by simp)
    | minus l r =>
      rw [evaluate_succ_minus] at h
      rcases hl : evaluate f l ctr with ⟨rl, c1⟩
      rw [hl] at h
      cases rl with
      | ok lv =>
        rw [bindRes_ok] at h
        rcases hr : evaluate f r c1 with ⟨rr, c2⟩
        rw [hr] at h
        cases rr with
        | ok rv =>
          rw [bindRes_ok] at h
          have hflv := ih l ctr lv c1 hl
          have hfrv := ih r c1 rv c2 hr
          clear ih hl hr
          split at h
          · simp only [Prod.mk.injEq, Res.ok.injEq] at h
            obtain ⟨h1, -⟩ := h
            subst h1
            rfl
          · simp only [Prod.mk.injEq, Res.ok.injEq] at h
            obtain ⟨h1, -⟩ := h
            subst h1
            rename_i hne
            have hnn := not_both_num hne
            simp [isFixed, hflv, hfrv, hnn]
        | err => rw [bindRes_err] at h; exact absurd h (by simp)
        | out => rw [bindRes_out] at h; exact absurd h (by simp)
      | err => rw [bindRes_err] at h; exact absurd h (by simp)
      | out => rw [bindRes_out] at h; exact absurd h (by simp)
    | times l r =>
      rw [evaluate_succ_times] at h
      rcases hl : evaluate f l ctr with ⟨rl, c1⟩
      rw [hl] at h
      cases rl with
      | ok lv =>
        rw [bindRes_ok] at h
        rcases hr : evaluate f r c1 with ⟨rr, c2⟩
        rw [hr] at h
        cases rr with
        | ok rv =>
          rw [bindRes_ok] at h
          have hflv := ih l ctr lv c1 hl
          have hfrv := ih r c1 rv c2 hr
          clear ih hl hr
          split at h
          · simp only [Prod.mk.injEq, Res.ok.injEq] at h
            obtain ⟨h1, -⟩ := h
            subst h1
            rfl
          · simp only [Prod.mk.injEq, Res.ok.injEq] at h
            obtain ⟨h1, -⟩ := h
            subst h1
            rename_i hne
            have hnn := not_both_num hne
            simp [isFixed, hflv, hfrv, hnn]
        | err => rw [bindRes_err] at h; exact absurd h (by simp)
        | out => rw [bindRes_out] at h; exact absurd h (by simp)
      | err => rw [bindRes_err] at h; exact absurd h (by simp)
      | out => rw [bindRes_out] at h; exact absurd h (by simp)
    | neg e =>
      rw [evaluate_succ_neg] at h
      rcases he : evaluate f e ctr with ⟨re, c1⟩
      rw [he] at h
      cases re with
      | ok ev =>
        rw [bindRes_ok] at h
        have hfe := ih e ctr ev c1 he
        clear ih he
        split at h
        · simp only [Prod.mk.injEq, Res.ok.injEq] at h
          obtain ⟨h1, -⟩ := h
          subst h1
          rfl
        · simp only [Prod.mk.injEq, Res.ok.injEq] at h
          obtain ⟨h1, -⟩ := h
          subst h1
          rename_i hne
          have : isNum ev = false := by cases ev <;> simp_all [isNum]
          simp [isFixed, hfe, this]
      | err => rw [bindRes_err] at h; exact absurd h (by simp)
      | out => rw [bindRes_out] at h; exact absurd h (by simp)
    | other tag fields =>
      rw [evaluate_succ_other] at h
      exact absurd h (by simp)

lemma sub_implOnly : ∀ (fuel : Nat) (t : Tree) (name : String) (r : Tree) (ctr : Nat)
    (res : Res) (c : Nat), substitute fuel t name r ctr = (res, c) →
    implOnly t = true → implOnly r = true →
    res = .out ∨ ∃ v, res = .ok v ∧ implOnly v = true := by
  intro fuel
  induction fuel with
  | zero =>
    intro t name r ctr res c h _ _
    rw [substitute_zero] at h
    simp only [Prod.mk.injEq] at h
    exact Or.inl h.1.symm
  | succ f ih =>
    intro t name r ctr res c h ht hr
    cases t with
    | var y =>
      rw [substitute_succ_var] at h
      split at h <;> simp only [Prod.mk.injEq] at h
      · exact Or.inr ⟨r, h.1.symm, hr⟩
      · exact Or.inr ⟨.var y, h.1.symm, rfl⟩
    | num w =>
      rw [substitute_succ_num] at h
      simp only [Prod.mk.injEq] at h
      exact Or.inr ⟨.num w, h.1.symm, rfl⟩
    | lam bound body =>
      rw [substitute_succ_lam] at h
      rw [implOnly] at ht
      split at h
      · simp only [Prod.mk.injEq] at h
        exact Or.inr ⟨.lam bound body, h.1.symm, ht⟩
      · rcases h1 : substitute f body bound (.var ("Var" ++ toString (ctr + 1))) (ctr + 1)
          with ⟨r1, c1⟩
        rw [h1] at h
        rcases ih body bound (.var ("Var" ++ toString (ctr + 1))) (ctr + 1) r1 c1 h1 ht rfl
          with h1o | ⟨v1, hv1, hi1⟩
        · subst h1o
          rw [bindRes_out] at h
          simp only [Prod.mk.injEq] at h
          exact Or.inl h.1.symm
        · subst hv1
          rw [bindRes_ok] at h
          rcases h2 : substitute f v1 name r c1 with ⟨r2, c2⟩
          rw [h2] at h
          rcases ih v1 name r c1 r2 c2 h2 hi1 hr with h2o | ⟨v2, hv2, hi2⟩
          · subst h2o
            rw [bindRes_out] at h
            simp only [Prod.mk.injEq] at h
            exact Or.inl h.1.symm
          · subst hv2
            rw [bindRes_ok] at h
            simp only [Prod.mk.injEq] at h
            exact Or.inr ⟨_, h.1.symm, by simp [implOnly, hi2]⟩
    | app fn a =>
      rw [substitute_succ_app] at h
      rw [implOnly, Bool.and_eq_true] at ht
      rcases h1 : substitute f fn name r ctr with ⟨r1, c1⟩
      rw [h1] at h
      rcases ih fn name r ctr r1 c1 h1 ht.1 hr with h1o | ⟨v1, hv1, hi1⟩
      · subst h1o
        rw [bindRes_out] at h
        simp only [Prod.mk.injEq] at h
        exact Or.inl h.1.symm
      · subst hv1
        rw [bindRes_ok] at h
        rcases h2 : substitute f a name r c1 with ⟨r2, c2⟩
        rw [h2] at h
        rcases ih a name r c1 r2 c2 h2 ht.2 hr with h2o | ⟨v2, hv2, hi2⟩
        · subst h2o
          rw [bindRes_out] at h
          simp only [Prod.mk.injEq] at h
          exact Or.inl h.1.symm
        · subst hv2
          rw [bindRes_ok] at h
          simp only [Prod.mk.injEq] at h
          exact Or.inr ⟨_, h.1.symm, by simp [implOnly, hi1, hi2]⟩
    | plus l r0 =>
      rw [substitute_succ_plus] at h
      rw [implOnly, Bool.and_eq_true] at ht
      rcases h1 : substitute f l name r ctr with ⟨r1, c1⟩
      rw [h1] at h
      rcases ih l name r ctr r1 c1 h1 ht.1 hr with h1o | ⟨v1, hv1, hi1⟩
      · subst h1o
        rw [bindRes_out] at h
        simp only [Prod.mk.injEq] at h
        exact Or.inl h.1.symm
      · subst hv1
        rw [bindRes_ok] at h
        rcases h2 : substitute f r0 name r c1 with ⟨r2, c2⟩
        rw [h2] at h
        rcases ih r0 name r c1 r2 c2 h2 ht.2 hr with h2o | ⟨v2, hv2, hi2⟩
        · subst h2o
          rw [bindRes_out] at h
          simp only [Prod.mk.injEq] at h
          exact Or.inl h.1.symm
        · subst hv2
          rw [bindRes_ok] at h
          simp only [Prod.mk.injEq] at h
          exact Or.inr ⟨_, h.1.symm, by simp [implOnly, hi1, hi2]⟩
    | minus l r0 =>
      rw [substitute_succ_minus] at h
      rw [implOnly, Bool.and_eq_true] at ht
      rcases h1 : substitute f l name r ctr with ⟨r1, c1⟩
      rw [h1] at h
      rcases ih l name r ctr r1 c1 h1 ht.1 hr with h1o | ⟨v1, hv1, hi1⟩
      · subst h1o
        rw [bindRes_out] at h
        simp only [Prod.mk.injEq] at h
        exact Or.inl h.1.symm
      · subst hv1
        rw [bindRes_ok] at h
        rcases h2 : substitute f r0 name r c1 with ⟨r2, c2⟩
        rw [h2] at h
        rcases ih r0 name r c1 r2 c2 h2 ht.2 hr with h2o | ⟨v2, hv2, hi2⟩
        · subst h2o
          rw [bindRes_out] at h
          simp only [Prod.mk.injEq] at h
          exact Or.inl h.1.symm
        · subst hv2
          rw [bindRes_ok] at h
          simp only [Prod.mk.injEq] at h
          exact Or.inr ⟨_, h.1.symm, by simp [implOnly, hi1, hi2]⟩
    | times l r0 =>
      rw [substitute_succ_times] at h
      rw [implOnly, Bool.and_eq_true] at ht
      rcases h1 : substitute f l name r ctr with ⟨r1, c1⟩
      rw [h1] at h
      rcases ih l name r ctr r1 c1 h1 ht.1 hr with h1o | ⟨v1, hv1, hi1⟩
      · subst h1o
        rw [bindRes_out] at h
        simp only [Prod.mk.injEq] at h
        exact Or.inl h.1.symm
      · subst hv1
        rw [bindRes_ok] at h
        rcases h2 : substitute f r0 name r c1 with ⟨r2, c2⟩
        rw [h2] at h
        rcases ih r0 name r c1 r2 c2 h2 ht.2 hr with h2o | ⟨v2, hv2, hi2⟩
        · subst h2o
          rw [bindRes_out] at h
          simp only [Prod.mk.injEq] at h
          exact Or.inl h.1.symm
        · subst hv2
          rw [bindRes_ok] at h
          simp only [Prod.mk.injEq] at h
          exact Or.inr ⟨_, h.1.symm, by simp [implOnly, hi1, hi2]⟩
    | neg e =>
      rw [substitute_succ_neg] at h
      rw [implOnly] at ht
      rcases h1 : substitute f e name r ctr with ⟨r1, c1⟩
      rw [h1] at h
      rcases ih e name r ctr r1 c1 h1 ht hr with h1o | ⟨v1, hv1, hi1⟩
      · subst h1o
        rw [bindRes_out] at h
        simp only [Prod.mk.injEq] at h
        exact Or.inl h.1.symm
      · subst hv1
        rw [bindRes_ok] at h
        simp only [Prod.mk.injEq] at h
        exact Or.inr ⟨_, h.1.symm, by simp [implOnly, hi1]⟩
    | other tag fields => simp [implOnly] at ht

lemma eval_implOnly : ∀ (fuel : Nat) (t : Tree) (ctr : Nat) (res : Res) (c : Nat),
    evaluate fuel t ctr = (res, c) → implOnly t = true →
    res = .out ∨ ∃ v, res = .ok v ∧ implOnly v = true := by
  intro fuel
  induction fuel with
  | zero =>
    intro t ctr res c h _
    rw [evaluate_zero] at h
    simp only [Prod.mk.injEq] at h
    exact Or.inl h.1.symm
  | succ f ih =>
    intro t ctr res c h ht
    cases t with
    | var y =>
      rw [evaluate_succ_var] at h
      simp only [Prod.mk.injEq] at h
      exact Or.inr ⟨.var y, h.1.symm, rfl⟩
    | num w =>
      rw [evaluate_succ_num] at h
      simp only [Prod.mk.injEq] at h
      exact Or.inr ⟨.num w, h.1.symm, rfl⟩
    | lam x b =>
      rw [evaluate_succ_lam] at h
      simp only [Prod.mk.injEq] at h
      exact Or.inr ⟨.lam x b, h.1.symm, ht⟩
    | app fn a =>
      rw [evaluate_succ_app] at h
      rw [implOnly, Bool.and_eq_true] at ht
      rcases h1 : evaluate f fn ctr with ⟨r1, c1⟩
      rw [h1] at h
      rcases ih fn ctr r1 c1 h1 ht.1 with h1o | ⟨fv, hv1, hi1⟩
      · subst h1o
        rw [bindRes_out] at h
        simp only [Prod.mk.injEq] at h
        exact Or.inl h.1.symm
      · subst hv1
        rw [bindRes_ok] at h
        split at h
        · rename_i name body
          rw [implOnly] at hi1
          rcases h2 : substitute f body name a c1 with ⟨r2, c2⟩
          rw [h2] at h
          rcases sub_implOnly f body name a c1 r2 c2 h2 hi1 ht.2
            with h2o | ⟨body1, hv2, hi2⟩
          · subst h2o
            rw [bindRes_out] at h
            simp only [Prod.mk.injEq] at h
            exact Or.inl h.1.symm
          · subst hv2
            rw [bindRes_ok] at h
            exact ih body1 c2 res c h hi2
        · simp only [Prod.mk.injEq] at h
          exact Or.inr ⟨_, h.1.symm, by simp [implOnly, hi1, ht.2]⟩
    | plus l r =>
      rw [evaluate_succ_plus] at h
      rw [implOnly, Bool.and_eq_true] at ht
      rcases h1 : evaluate f l ctr with ⟨r1, c1⟩
      rw [h1] at h
      rcases ih l ctr r1 c1 h1 ht.1 with h1o | ⟨lv, hv1, hi1⟩
      · subst h1o
        rw [bindRes_out] at h
        simp only [Prod.mk.injEq] at h
        exact Or.inl h.1.symm
      · subst hv1
        rw [bindRes_ok] at h
        rcases h2 : evaluate f r c1 with ⟨r2, c2⟩
        rw [h2] at h
        rcases ih r c1 r2 c2 h2 ht.2 with h2o | ⟨rv, hv2, hi2⟩
        · subst h2o
          rw [bindRes_out] at h
          simp only [Prod.mk.injEq] at h
          exact Or.inl h.1.symm
        · subst hv2
          rw [bindRes_ok] at h
          split at h <;> simp only [Prod.mk.injEq] at h
          · exact Or.inr ⟨_, h.1.symm, rfl⟩
          · exact Or.inr ⟨_, h.1.symm, by simp [implOnly, hi1, hi2]⟩
    | minus l r =>
      rw [evaluate_succ_minus] at h
      rw [implOnly, Bool.and_eq_true] at ht
      rcases h1 : evaluate f l ctr with ⟨r1, c1⟩
      rw [h1] at h
      rcases ih l ctr r1 c1 h1 ht.1 with h1o | ⟨lv, hv1, hi1⟩
      · subst h1o
        rw [bindRes_out] at h
        simp only [Prod.mk.injEq] at h
        exact Or.inl h.1.symm
      · subst hv1
        rw [bindRes_ok] at h
        rcases h2 : evaluate f r c1 with ⟨r2, c2⟩
        rw [h2] at h
        rcases ih r c1 r2 c2 h2 ht.2 with h2o | ⟨rv, hv2, hi2⟩
        · subst h2o
          rw [bindRes_out] at h
          simp only [Prod.mk.injEq] at h
          exact Or.inl h.1.symm
        · subst hv2
          rw [bindRes_ok] at h
          split at h <;> simp only [Prod.mk.injEq] at h
          · exact Or.inr ⟨_, h.1.symm, rfl⟩
          · exact Or.inr ⟨_, h.1.symm, by simp [implOnly, hi1, hi2]⟩
    | times l r =>
      rw [evaluate_succ_times] at h
      rw [implOnly, Bool.and_eq_true] at ht
      rcases h1 : evaluate f l ctr with ⟨r1, c1⟩
      rw [h1] at h
      rcases ih l ctr r1 c1 h1 ht.1 with h1o | ⟨lv, hv1, hi1⟩
      · subst h1o
        rw [bindRes_out] at h
        simp only [Prod.mk.injEq] at h
        exact Or.inl h.1.symm
      · subst hv1
        rw [bindRes_ok] at h
        rcases h2 : evaluate f r c1 with ⟨r2, c2⟩
        rw [h2] at h
        rcases ih r c1 r2 c2 h2 ht.2 with h2o | ⟨rv, hv2, hi2⟩
        · subst h2o
          rw [bindRes_out] at h
          simp only [Prod.mk.injEq] at h
          exact Or.inl h.1.symm
        · subst hv2
          rw [bindRes_ok] at h
          split at h <;> simp only [Prod.mk.injEq] at h
          · exact Or.inr ⟨_, h.1.symm, rfl⟩
          · exact Or.inr ⟨_, h.1.symm, by simp [implOnly, hi1, hi2]⟩
    | neg e =>
      rw [evaluate_succ_neg] at h
      rw [implOnly] at ht
      rcases h1 : evaluate f e ctr with ⟨r1, c1⟩
      rw [h1] at h
      rcases ih e ctr r1 c1 h1 ht with h1o | ⟨ev, hv1, hi1⟩
      · subst h1o
        rw [bindRes_out] at h
        simp only [Prod.mk.injEq] at h
        exact Or.inl h.1.symm
      · subst hv1
        rw [bindRes_ok] at h
        split at h <;> simp only [Prod.mk.injEq] at h
        · exact Or.inr ⟨_, h.1.symm, rfl⟩
        · exact Or.inr ⟨_, h.1.symm, by simp [implOnly, hi1]⟩
    | other tag fields => simp [implOnly] at ht

/-! Structural induction from isNormal to isFixed. -/

lemma isNormal_isFixed : ∀ (t : Tree), isNormal t = true → isFixed t = true
  | .var _, _ => rfl
  | .num _, _ => rfl
  | .lam _ _, _ => rfl
  | .app f a, h => by
    rw [isNormal, Bool.and_eq_true, Bool.and_eq_true] at h
    rw [isFixed]
    simp [isNormal_isFixed f h.1.1, h.1.2]
  | .plus l r, h => by
    rw [isNormal, Bool.and_eq_true, Bool.and_eq_true] at h
    rw [isFixed]
    simp [isNormal_isFixed l h.1.1, isNormal_isFixed r h.1.2, h.2]
  | .minus l r, h => by
    rw [isNormal, Bool.and_eq_true, Bool.and_eq_true] at h
    rw [isFixed]
    simp [isNormal_isFixed l h.1.1, isNormal_isFixed r h.1.2, h.2]
  | .times l r, h => by
    rw [isNormal, Bool.and_eq_true, Bool.and_eq_true] at h
    rw [isFixed]
    simp [isNormal_isFixed l h.1.1, isNormal_isFixed r h.1.2, h.2]
  | .neg e, h => by
    rw [isNormal, Bool.and_eq_true] at h
    rw [isFixed]
    simp [isNormal_isFixed e h.1, h.2]
  | .other _ _, h => by rw [isNormal] at h; exact absurd h (by simp)

/-- C1: the App rule is normal-order: evaluate reduces only the function
first; a Lam result triggers substitution of the untouched argument into
the body followed by evaluation, any other result yields the stuck
residual App(f_val, a) with the argument unevaluated; consequently
App(Lam(x, Num 1), a) evaluates to Num 1 for every argument a, divergent
ones included. -/
theorem claim_C1 :
    (∀ (f : Nat) (fn a : Tree) (x : String) (body : Tree) (ctr c1 : Nat),
      evaluate f fn ctr = (.ok (.lam x body), c1) →
      evaluate (f + 1) (.app fn a) ctr =
        bindRes (substitute f body x a c1) (fun body1 c2 => evaluate f body1 c2))
    ∧ (∀ (f : Nat) (fn a v : Tree) (ctr c1 : Nat),
      evaluate f fn ctr = (.ok v, c1) → isLam v = false →
      evaluate (f + 1) (.app fn a) ctr = (.ok (.app v a), c1))
    ∧ (∀ (f : Nat) (x : String) (a : Tree) (ctr : Nat),
      evaluate (f + 2) (.app (.lam x (.num 1)) a) ctr = (.ok (.num 1), ctr)) := by
  refine ⟨?_, ?_, ?_⟩
  · intro f fn a x body ctr c1 h
    rw [evaluate_succ_app, h, bindRes_ok]
  · intro f fn a v ctr c1 h hl
    rw [evaluate_succ_app, h, bindRes_ok]
    cases v <;> simp_all [isLam]
  · intro f x a ctr
    show evaluate (f + 1 + 1) (.app (.lam x (.num 1)) a) ctr = (.ok (.num 1), ctr)
    rw [evaluate_succ_app, evaluate_succ_lam, bindRes_ok]
    show bindRes (substitute (f + 1) (.num 1) x a ctr) _ = _
    rw [substitute_succ_num, bindRes_ok, evaluate_succ_num]

theorem claim_C1_witness :
    evaluate 3 (.app (.lam "x" (.var "x")) (.num 7)) 0 = (.ok (.num 7), 0)
    ∧ evaluate 2 (.app (.var "g") (.num 7)) 0 = (.ok (.app (.var "g") (.num 7)), 0) := by
  constructor
  · have h := claim_C1.1 2 (.lam "x" (.var "x")) (.num 7) "x" (.var "x") 0 0 rfl
    exact h.trans rfl
  · exact claim_C1.2.1 1 (.var "g") (.num 7) (.var "g") 0 0 rfl rfl

/-- C2: substitution into an abstraction: when the binder equals the
substituted name the abstraction is returned unchanged; otherwise the
binder is unconditionally renamed to the fresh name Var(ctr+1), the body
is first renamed and then substituted, and the fresh binder can never
equal a user-writable identifier occurring free in the replacement, so no
free variable of the replacement is captured; concretely the program
(\x.\y.x) y evaluates to (\Var1.y), the free y uncaptured. -/
theorem claim_C2 :
    (∀ (f : Nat) (y : String) (b r : Tree) (ctr : Nat),
      substitute (f + 1) (.lam y b) y r ctr = (.ok (.lam y b), ctr))
    ∧ (∀ (f : Nat) (y : String) (b : Tree) (x : String) (r : Tree)
        (ctr : Nat) (b1 : Tree) (c2 : Nat) (b2 : Tree) (c3 : Nat),
      y ≠ x →
      substitute f b y (.var ("Var" ++ toString (ctr + 1))) (ctr + 1) = (.ok b1, c2) →
      substitute f b1 x r c2 = (.ok b2, c3) →
      substitute (f + 1) (.lam y b) x r ctr =
        (.ok (.lam ("Var" ++ toString (ctr + 1)) b2), c3))
    ∧ (∀ (ctr : Nat) (s : String), isUserIdent s = true → s ≠ "Var" ++ toString (ctr + 1))
    ∧ evaluate 3 (.app (.lam "x" (.lam "y" (.var "x"))) (.var "y")) 0 =
        (.ok (.lam "Var1" (.var "y")), 1) := by
  refine ⟨?_, ?_, ?_, rfl⟩
  · intro f y b r ctr
    rw [substitute_succ_lam, if_pos rfl]
  · intro f y b x r ctr b1 c2 b2 c3 hyx h1 h2
    rw [substitute_succ_lam, if_neg hyx, h1, bindRes_ok, h2, bindRes_ok]
  · intro ctr s hs
    exact userIdent_ne_var_append (toString (ctr + 1)) s hs

theorem claim_C2_witness :
    substitute 1 (.lam "x" (.var "x")) "x" (.num 2) 0 = (.ok (.lam "x" (.var "x")), 0)
    ∧ substitute 2 (.lam "y" (.var "x")) "x" (.var "y") 0 =
        (.ok (.lam ("Var" ++ toString (0 + 1)) (.var "y")), 1)
    ∧ "y" ≠ "Var" ++ toString (0 + 1) := by
  refine ⟨claim_C2.1 0 "x" (.var "x") (.num 2) 0, ?_, ?_⟩
  · exact claim_C2.2.1 1 "y" (.var "x") "x" (.var "y") 0 (.var "x") 1 (.var "y") 1
      (by decide) rfl rfl
  · exact claim_C2.2.2.1 0 "y" (by decide)

/-- C3: evaluate never reduces under a lambda: Var, Num and Lam nodes are
returned exactly as given, the lambda body untouched even when it holds a
redex; the example Lam(x, App(Lam(y, Var y), Var x)) is returned
structurally unchanged and linearizes as the concrete string shown in the
specification. -/
theorem claim_C3 :
    (∀ (f : Nat) (y : String) (ctr : Nat),
      evaluate (f + 1) (.var y) ctr = (.ok (.var y), ctr))
    ∧ (∀ (f : Nat) (v : Rat) (ctr : Nat),
      evaluate (f + 1) (.num v) ctr = (.ok (.num v), ctr))
    ∧ (∀ (f : Nat) (x : String) (b : Tree) (ctr : Nat),
      evaluate (f + 1) (.lam x b) ctr = (.ok (.lam x b), ctr))
    ∧ (∀ (f : Nat) (ctr : Nat),
      evaluate (f + 1) (.lam "x" (.app (.lam "y" (.var "y")) (.var "x"))) ctr =
        (.ok (.lam "x" (.app (.lam "y" (.var "y")) (.var "x"))), ctr))
    ∧ linearize (.lam "x" (.app (.lam "y" (.var "y")) (.var "x"))) = "(\\x.((\\y.y) x))" :=
  ⟨fun f y ctr => evaluate_succ_var f y ctr,
   fun f v ctr => evaluate_succ_num f v ctr,
   fun f x b ctr => evaluate_succ_lam f x b ctr,
   fun f ctr => evaluate_succ_lam f _ _ ctr,
   rfl⟩

/-- C4: for Plus, Minus and Times, evaluate reduces both operands; if both
results are numbers it returns the single Num holding their sum,
difference or product, and otherwise it returns the same operator
reapplied to the two evaluated operands as a residual, never an error. -/
theorem claim_C4 :
    (∀ (f : Nat) (l r : Tree) (a b : Rat) (ctr c1 c2 : Nat),
      evaluate f l ctr = (.ok (.num a), c1) →
      evaluate f r c1 = (.ok (.num b), c2) →
      evaluate (f + 1) (.plus l r) ctr = (.ok (.num (a + b)), c2)
      ∧ evaluate (f + 1) (.minus l r) ctr = (.ok (.num (a - b)), c2)
      ∧ evaluate (f + 1) (.times l r) ctr = (.ok (.num (a * b)), c2))
    ∧ (∀ (f : Nat) (l r u v : Tree) (ctr c1 c2 : Nat),
      evaluate f l ctr = (.ok u, c1) →
      evaluate f r c1 = (.ok v, c2) →
      (isNum u && isNum v) = false →
      evaluate (f + 1) (.plus l r) ctr = (.ok (.plus u v), c2)
      ∧ evaluate (f + 1) (.minus l r) ctr = (.ok (.minus u v), c2)
      ∧ evaluate (f + 1) (.times l r) ctr = (.ok (.times u v), c2)) := by
  constructor
  · intro f l r a b ctr c1 c2 h1 h2
    refine ⟨?_, ?_, ?_⟩
    · rw [evaluate_succ_plus, h1, bindRes_ok, h2, bindRes_ok]
    · rw [evaluate_succ_minus, h1, bindRes_ok, h2, bindRes_ok]
    · rw [evaluate_succ_times, h1, bindRes_ok, h2, bindRes_ok]
  · intro f l r u v ctr c1 c2 h1 h2 h3
    refine ⟨?_, ?_, ?_⟩
    · rw [evaluate_succ_plus, h1, bindRes_ok, h2, bindRes_ok]
      cases u <;> cases v <;> simp_all [isNum]
    · rw [evaluate_succ_minus, h1, bindRes_ok, h2, bindRes_ok]
      cases u <;> cases v <;> simp_all [isNum]
    · rw [evaluate_succ_times, h1, bindRes_ok, h2, bindRes_ok]
      cases u <;> cases v <;> simp_all [isNum]

theorem claim_C4_witness :
    (evaluate 2 (.plus (.num 1) (.num 2)) 0 = (.ok (.num (1 + 2)), 0)
      ∧ evaluate 2 (.minus (.num 1) (.num 2)) 0 = (.ok (.num (1 - 2)), 0)
      ∧ evaluate 2 (.times (.num 1) (.num 2)) 0 = (.ok (.num (1 * 2)), 0))
    ∧ (evaluate 2 (.plus (.var "x") (.num 2)) 0 = (.ok (.plus (.var "x") (.num 2)), 0)
      ∧ evaluate 2 (.minus (.var "x") (.num 2)) 0 = (.ok (.minus (.var "x") (.num 2)), 0)
      ∧ evaluate 2 (.times (.var "x") (.num 2)) 0 = (.ok (.times (.var "x") (.num 2)), 0)) :=
  ⟨claim_C4.1 1 (.num 1) (.num 2) 1 2 0 0 0 rfl rfl,
   claim_C4.2 1 (.var "x") (.num 2) (.var "x") (.num 2) 0 0 0 rfl rfl rfl⟩

/-- C5: the claim says evaluate reduces If(c, t, e) by testing the number
value of c; the source evaluate has no branch for the if tag, so the call
raises Exception Unknown node instead (the repository test suite asserts
if 0 then 2 else 1 gives 1.0, which this contradicts).  The if node is a
tuple with an unrecognised tag, and evaluate on it errs at once for every
fuel and counter, in particular on the test input if 0 then 2 else 1. -/
theorem claim_C5 :
    (∀ (f : Nat) (c t e : Tree) (ctr : Nat),
      evaluate (f + 1) (.other "if" [.ftree c, .ftree t, .ftree e]) ctr = (.err, ctr))
    ∧ evaluate 5 (.other "if" [.ftree (.num 0), .ftree (.num 2), .ftree (.num 1)]) 0 =
        (.err, 0) :=
  ⟨fun f c t e ctr => evaluate_succ_other f "if" [.ftree c, .ftree t, .ftree e] ctr, rfl⟩

/-- The abstract syntax tree of the factorial program
letrec f = \n. if n == 0 then 1 else n * f (n - 1) in f 4. -/
def factorialProgram : Tree :=
  .other "letrec" [.fstr "f",
    .ftree (.lam "n" (.other "if" [
      .ftree (.other "eq" [.ftree (.var "n"), .ftree (.num 0)]),
      .ftree (.num 1),
      .ftree (.times (.var "n") (.app (.var "f") (.minus (.var "n") (.num 1))))])),
    .ftree (.app (.var "f") (.num 4))]

/-- C6: the claim says evaluate implements LetRec by knot-tying
substitution and that the factorial program reduces to Num 24; the source
evaluate and substitute have no branch for the letrec tag, so evaluating
the factorial program raises Exception Unknown node at the root for every
fuel and counter, while the repository test suite asserts the same
program prints 24.0. -/
theorem claim_C6 :
    (∀ (f ctr : Nat), evaluate (f + 1) factorialProgram ctr = (.err, ctr))
    ∧ evaluate 9 factorialProgram 0 = (.err, 0) :=
  ⟨fun f ctr => evaluate_succ_other f _ _ ctr, rfl⟩

/-- C7 counterexample: the claim asserts that Hd applied to Nil yields a
residual rather than a fault, but the source evaluate has no branch for
the hd tag and raises Exception Unknown node on that input. -/
theorem claim_C7_counterexample :
    evaluate 2 (.other "hd" [.ftree (.other "nil" [])]) 0 = (.err, 0) := rfl

/-- C7 amended: over the variants the interpreter implements (var, num,
lam, app, plus, minus, times, neg) stuck terms are not errors: evaluate
never raises on such expressions, whatever the fuel and counter, and
arithmetic over a free variable in particular returns a residual; every
expression whose tag lies outside the implemented variants, such as
Hd(Nil), raises Exception Unknown node instead. -/
theorem claim_C7 :
    (∀ (f : Nat) (t : Tree) (ctr : Nat), implOnly t = true →
      (evaluate f t ctr).1 ≠ .err)
    ∧ (∀ (f : Nat) (tag : String) (fs : List Field) (ctr : Nat),
      evaluate (f + 1) (.other tag fs) ctr = (.err, ctr)) := by
  constructor
  · intro f t ctr ht
    rcases h : evaluate f t ctr with ⟨res, c⟩
    rcases eval_implOnly f t ctr res c h ht with ho | ⟨v, hv, -⟩
    · subst ho; simp
    · subst hv; simp
  · intro f tag fs ctr
    exact evaluate_succ_other f tag fs ctr

theorem claim_C7_witness :
    (evaluate 2 (.plus (.var "x") (.num 1)) 0).1 ≠ .err :=
  claim_C7.1 2 (.plus (.var "x") (.num 1)) 0 rfl

/-- C8: values are fixed points of evaluation: every expression that is
normal in the sense of the specification (a Num, a Lam, a Var, or a stuck
residual all of whose children are normal) is returned structurally
unchanged by evaluate given fuel at least its depth, and every value that
evaluate returns is again returned unchanged when evaluated, so
evaluation is idempotent whenever it terminates. -/
theorem claim_C8 :
    (∀ (t : Tree) (f ctr : Nat), isNormal t = true → depth t ≤ f →
      evaluate f t ctr = (.ok t, ctr))
    ∧ (∀ (f : Nat) (t : Tree) (ctr : Nat) (v : Tree) (c g ctr2 : Nat),
      evaluate f t ctr = (.ok v, c) → depth v ≤ g →
      evaluate g v ctr2 = (.ok v, ctr2)) := by
  constructor
  · intro t f ctr hn hd
    exact eval_isFixed f t ctr (isNormal_isFixed t hn) hd
  · intro f t ctr v c g ctr2 h hd
    exact eval_isFixed g v ctr2 (eval_ok_isFixed f t ctr v c h) hd

theorem claim_C8_witness :
    evaluate 2 (.plus (.var "x") (.num 1)) 0 = (.ok (.plus (.var "x") (.num 1)), 0)
    ∧ evaluate 1 (.num 5) 0 = (.ok (.num 5), 0) :=
  ⟨claim_C8.1 (.plus (.var "x") (.num 1)) 2 0 (by decide) (by decide),
   claim_C8.2 3 (.app (.lam "x" (.var "x")) (.num 5)) 0 (.num 5) 0 1 0 rfl (by decide)⟩

/-- C9: the fresh-name supply is a monotonic counter: each call increments
the counter and returns Var followed by the new value; counters strictly
increase, distinct counters give distinct names (decimal printing of
naturals is injective), every generated name begins with the uppercase V,
and generated names are disjoint from user-writable identifiers, which
match a lowercase letter followed by alphanumerics. -/
theorem claim_C9 :
    (∀ c : Nat, (generate c).2 = c + 1 ∧ c < (generate c).2)
    ∧ (∀ c : Nat, (generate c).1 = "Var" ++ toString (c + 1))
    ∧ (∀ c1 c2 : Nat, c1 ≠ c2 → (generate c1).1 ≠ (generate c2).1)
    ∧ (∀ c : Nat, ((generate c).1.data.head?.map Char.isUpper) = some true)
    ∧ (∀ (c : Nat) (s : String), isUserIdent s = true → s ≠ (generate c).1) := by
  refine ⟨fun c => ⟨rfl, Nat.lt_succ_self c⟩, fun c => rfl, ?_, ?_, ?_⟩
  · intro c1 c2 hne heq
    have h1 : toString (c1 + 1) = toString (c2 + 1) := var_append_injective heq
    have h2 := natToString_injective h1
    omega
  · intro c
    show (("Var" ++ toString (c + 1)).data.head?.map Char.isUpper) = some true
    rw [var_append_data]
    rfl
  · intro c s hs
    exact userIdent_ne_var_append (toString (c + 1)) s hs

theorem claim_C9_witness :
    (generate 0).1 ≠ (generate 1).1
    ∧ isUserIdent "x1" = true
    ∧ "x1" ≠ (generate 0).1 :=
  ⟨claim_C9.2.2.1 0 1 (by decide), by decide, claim_C9.2.2.2.2 0 "x1" (by decide)⟩

/-- C10: linearize is total over all tagged trees: it is a function into
strings defined on every tree, and a tree whose tag is none of var, num,
lam, app, plus, minus, times, neg is rendered through the default string
conversion of the host language applied to the tuple rather than treated
as a fault. -/
theorem claim_C10 :
    (∀ t : Tree, ∃ s : String, linearize t = s)
    ∧ (∀ (tag : String) (fs : List Field),
      linearize (.other tag fs) = pyStr (.other tag fs)) :=
  ⟨fun t => ⟨linearize t, rfl⟩, fun _ _ => rfl⟩

end Assignment3
